/-
Verification of the deployable backend analysis pipeline.

Shallow embedding of the Python sources under backend/app into Lean 4,
together with theorems settling the specification claims about chunking,
batch analysis, client pooling, JSON extraction, event streaming, merge
aggregation, statistics, and batched file fetching.
-/
import Mathlib

namespace Deployable

/-! ## Chunking (backend/app/api/endpoints/analysis.py, chunk_files)

The Python function groups files by extension before chunking:

    grouped_files = {}; for file in files: ext = ...; grouped_files[ext].append(file)
    for ext, file_group in grouped_files.items():
        for i in range(0, len(file_group), chunk_size):
            chunk = file_group[i:i + chunk_size]
            if len(chunk) == chunk_size: chunks.append(chunk)
            else: remaining_files.extend(chunk)
    for i in range(0, len(remaining_files), chunk_size):
        chunks.append(remaining_files[i:i + chunk_size])
-/


structure FileRec where
  name : String
  content : String
deriving DecidableEq, Repr

def pyCharIn (c : Char) (l : List Char) : Bool := l.any (· == c)

def splitOnChar (c : Char) : List Char → List (List Char)
  | [] => [[]]
  | a :: rest =>
    match splitOnChar c rest with
    | [] => [[]]
    | s :: ss => if a = c then [] :: s :: ss else (a :: s) :: ss

def extOf (f : FileRec) : List Char :=
  if pyCharIn '.' f.name.toList then (splitOnChar '.' f.name.toList).getLastD []
  else "unknown".toList

def addToGroup (gs : List (List Char × List FileRec)) (k : List Char) (f : FileRec) :
    List (List Char × List FileRec) :=
  match gs with
  | [] => [(k, [f])]
  | (k', fs) :: rest =>
    if k' = k then (k', fs ++ [f]) :: rest else (k', fs) :: addToGroup rest k f

def groupByExt (files : List FileRec) : List (List Char × List FileRec) :=
  files.foldl (fun gs f => addToGroup gs (extOf f) f) []

def chunkSlicesGo (s : Nat) : Nat → List α → List (List α)
  | _, [] => []
  | 0, _ :: _ => []
  | fuel + 1, a :: l =>
    if s = 0 then []
    else (a :: l).take s :: chunkSlicesGo s fuel ((a :: l).drop s)

def chunkSlices (s : Nat) (l : List α) : List (List α) := chunkSlicesGo s l.length l

theorem chunkSlicesGo_congr (s : Nat) :
    ∀ (f1 f2 : Nat) (l : List α), l.length ≤ f1 → l.length ≤ f2 →
      chunkSlicesGo s f1 l = chunkSlicesGo s f2 l := by
  intro f1
  induction f1 with
  | zero =>
    intro f2 l h1 _
    have : l = [] := List.length_eq_zero.mp (by omega)
    subst this
    cases f2 <;> rfl
  | succ f1 ih =>
    intro f2 l h1 h2
    match l with
    | [] => cases f2 <;> rfl
    | a :: t =>
      match f2 with
      | 0 => simp at h2
      | f2 + 1 =>
        simp only [chunkSlicesGo]
        by_cases hs : s = 0
        · rw [if_pos hs, if_pos hs]
        · rw [if_neg hs, if_neg hs]
          congr 1
          apply ih
          · simp only [List.length_drop, List.length_cons] at *
            omega
          · simp only [List.length_drop, List.length_cons] at *
            omega

theorem chunkSlices_cons (s : Nat) (a : α) (l : List α) :
    chunkSlices s (a :: l) =
      if s = 0 then []
      else (a :: l).take s :: chunkSlices s ((a :: l).drop s) := by
  unfold chunkSlices
  simp only [List.length_cons, chunkSlicesGo]
  by_cases hs : s = 0
  · rw [if_pos hs, if_pos hs]
  · rw [if_neg hs, if_neg hs]
    congr 1
    apply chunkSlicesGo_congr
    · simp only [List.length_drop, List.length_cons]
      omega
    · exact Nat.le_refl _

theorem chunkSlices_flatten (s : Nat) (hs : 0 < s) :
    ∀ l : List α, (chunkSlices s l).flatten = l
  | [] => rfl
  | a :: t => by
    rw [chunkSlices_cons, if_neg (by omega)]
    rw [List.flatten_cons, chunkSlices_flatten s hs ((a :: t).drop s), List.take_append_drop]
termination_by l => l.length
decreasing_by
  simp only [List.length_drop, List.length_cons]
  omega

theorem mem_chunkSlices {s : Nat} :
    ∀ {l c : List α}, c ∈ chunkSlices s l → c.length ≤ s ∧ c ≠ []
  | [], c, hc => by simp [chunkSlices, chunkSlicesGo] at hc
  | a :: t, c, hc => by
    rw [chunkSlices_cons] at hc
    by_cases h : s = 0
    · rw [if_pos h] at hc
      simp at hc
    · rw [if_neg h] at hc
      rcases List.mem_cons.mp hc with hceq | hc2
      · subst hceq
        refine ⟨List.length_take_le s _, fun contra => ?_⟩
        have := congrArg List.length contra
        simp only [List.length_take, List.length_cons, List.length_nil] at this
        omega
      · exact mem_chunkSlices hc2
termination_by l => l.length
decreasing_by
  simp only [List.length_drop, List.length_cons]
  omega

theorem length_chunkSlices (s : Nat) (hs : 0 < s) :
    ∀ l : List α, (chunkSlices s l).length = (l.length + s - 1) / s
  | [] => by
    simp only [chunkSlices, chunkSlicesGo, List.length_nil]
    exact (Nat.div_eq_of_lt (by omega)).symm
  | a :: t => by
    rw [chunkSlices_cons, if_neg (by omega)]
    simp only [List.length_cons, length_chunkSlices s hs ((a :: t).drop s), List.length_drop]
    rcases le_or_lt (t.length + 1) s with hle | hgt
    · have h1 : t.length + 1 - s = 0 := by omega
      rw [h1]
      rw [Nat.div_eq_of_lt (show 0 + s - 1 < s by omega)]
      rw [Nat.div_eq_sub_div hs (show s ≤ t.length + 1 + s - 1 by omega)]
      rw [Nat.div_eq_of_lt (show t.length + 1 + s - 1 - s < s by omega)]
    · rw [Nat.div_eq_sub_div hs (show s ≤ t.length + 1 + s - 1 by omega)]
      have heq : t.length + 1 - s + s - 1 = t.length + 1 + s - 1 - s := by omega
      rw [heq]
termination_by l => l.length
decreasing_by
  simp only [List.length_drop, List.length_cons]
  omega

def procStep (s : Nat) (cr : List (List FileRec) × List FileRec) (c : List FileRec) :
    List (List FileRec) × List FileRec :=
  if c.length = s then (cr.1 ++ [c], cr.2) else (cr.1, cr.2 ++ c)

def procSlices (s : Nat) (cr : List (List FileRec) × List FileRec)
    (slices : List (List FileRec)) : List (List FileRec) × List FileRec :=
  slices.foldl (procStep s) cr

def chunk_files (files : List FileRec) (chunk_size : Nat) : List (List FileRec) :=
  let groups := groupByExt files
  let cr := groups.foldl
    (fun cr g => procSlices chunk_size cr (chunkSlices chunk_size g.2)) ([], [])
  cr.1 ++ chunkSlices chunk_size cr.2

theorem procStep_split (s : Nat) (cs : List (List FileRec)) (r : List FileRec)
    (c : List FileRec) :
    procStep s (cs, r) c = (cs ++ (procStep s ([], []) c).1, r ++ (procStep s ([], []) c).2) := by
  unfold procStep
  split <;> simp

theorem procSlices_acc (s : Nat) (slices : List (List FileRec))
    (cs : List (List FileRec)) (r : List FileRec) :
    procSlices s (cs, r) slices =
      (cs ++ (procSlices s ([], []) slices).1, r ++ (procSlices s ([], []) slices).2) := by
  induction slices generalizing cs r with
  | nil => simp [procSlices]
  | cons c rest ih =>
    simp only [procSlices, List.foldl_cons] at *
    rw [procStep_split]
    rcases hp : procStep s ([], []) c with ⟨a1, a2⟩
    simp only [List.nil_append]
    rw [ih, ih a1 a2]
    simp

def fullOf (s : Nat) (g : List FileRec) : List (List FileRec) :=
  (procSlices s ([], []) (chunkSlices s g)).1

def remOf (s : Nat) (g : List FileRec) : List FileRec :=
  (procSlices s ([], []) (chunkSlices s g)).2

theorem fullOf_remOf_spec (s : Nat) (hs : 0 < s) :
    ∀ g : List FileRec,
      (fullOf s g).flatten ++ remOf s g = g ∧
      (∀ c ∈ fullOf s g, c.length = s) ∧
      (remOf s g).length < s
  | [] => by
    simp only [fullOf, remOf, chunkSlices, chunkSlicesGo, procSlices, List.foldl_nil,
      List.length_nil]
    refine ⟨rfl, by simp, by simpa using hs⟩
  | a :: l => by
    have ih := fullOf_remOf_spec s hs ((a :: l).drop s)
    unfold fullOf remOf
    rw [chunkSlices_cons, if_neg (by omega)]
    simp only [procSlices, List.foldl_cons]
    rw [show procStep s ([], []) (List.take s (a :: l)) =
        (([] : List (List FileRec)) ++ (procStep s ([], []) (List.take s (a :: l))).1,
         ([] : List FileRec) ++ (procStep s ([], []) (List.take s (a :: l))).2) from
      procStep_split s [] [] _]
    by_cases hc : (List.take s (a :: l)).length = s
    · have hp : procStep s ([], []) (List.take s (a :: l)) = ([List.take s (a :: l)], []) := by
        unfold procStep
        rw [if_pos hc]
        rfl
      rw [hp]
      simp only [List.nil_append]
      have hacc := procSlices_acc s (chunkSlices s (List.drop s (a :: l))) [List.take s (a :: l)] []
      simp only [procSlices] at hacc
      rw [hacc]
      refine ⟨?_, ?_, ?_⟩
      · simp only [List.flatten_append, List.flatten_cons, List.flatten_nil, List.append_nil,
          List.nil_append, List.append_assoc]
        have h1 : (fullOf s (List.drop s (a :: l))).flatten ++ remOf s (List.drop s (a :: l)) =
            List.drop s (a :: l) := ih.1
        simp only [fullOf, remOf, procSlices] at h1
        rw [h1, List.take_append_drop]
      · intro c hcmem
        rcases List.mem_cons.mp hcmem with rfl | hrest
        · exact hc
        · have h2 := ih.2.1 c
          simp only [fullOf, procSlices] at h2
          exact h2 hrest
      · have h3 := ih.2.2
        simp only [remOf, procSlices] at h3
        exact h3
    · have hp : procStep s ([], []) (List.take s (a :: l)) = ([], List.take s (a :: l)) := by
        unfold procStep
        rw [if_neg hc]
        rfl
      rw [hp]
      have hlen : l.length + 1 < s := by
        simp only [List.length_take, List.length_cons] at hc
        omega
      have hdrop : List.drop s (a :: l) = [] := by
        apply List.drop_eq_nil_of_le
        simp only [List.length_cons]
        omega
      have htake : List.take s (a :: l) = a :: l := by
        apply List.take_of_length_le
        simp only [List.length_cons]
        omega
      rw [hdrop]
      simp only [chunkSlices, chunkSlicesGo, List.length_nil, List.foldl_nil, List.nil_append]
      refine ⟨by simp [htake], by simp, ?_⟩
      rw [htake]
      simpa using hlen
termination_by g => g.length
decreasing_by
  simp only [List.length_drop, List.length_cons]
  omega

theorem fullOf_len (s : Nat) (hs : 0 < s) (g : List FileRec) :
    (fullOf s g).length = g.length / s := by
  obtain ⟨ha, hb, hcr⟩ := fullOf_remOf_spec s hs g
  have hmap : (fullOf s g).map List.length = List.replicate (fullOf s g).length s := by
    have := List.eq_replicate_of_mem (l := (fullOf s g).map List.length) (a := s) ?_
    · simpa using this
    · intro b hb'
      rcases List.mem_map.mp hb' with ⟨c, hc, rfl⟩
      exact hb c hc
  have hlen : (remOf s g).length + s * (fullOf s g).length = g.length := by
    conv_rhs => rw [← ha]
    rw [List.length_append, List.length_flatten, hmap, List.sum_replicate, smul_eq_mul]
    ring
  exact ((Nat.div_mod_unique hs).mpr ⟨hlen, hcr⟩).1.symm

theorem remOf_len (s : Nat) (hs : 0 < s) (g : List FileRec) :
    (remOf s g).length = g.length % s := by
  obtain ⟨ha, hb, hcr⟩ := fullOf_remOf_spec s hs g
  have hmap : (fullOf s g).map List.length = List.replicate (fullOf s g).length s := by
    have := List.eq_replicate_of_mem (l := (fullOf s g).map List.length) (a := s) ?_
    · simpa using this
    · intro b hb'
      rcases List.mem_map.mp hb' with ⟨c, hc, rfl⟩
      exact hb c hc
  have hlen : (remOf s g).length + s * (fullOf s g).length = g.length := by
    conv_rhs => rw [← ha]
    rw [List.length_append, List.length_flatten, hmap, List.sum_replicate, smul_eq_mul]
    ring
  exact ((Nat.div_mod_unique hs).mpr ⟨hlen, hcr⟩).2.symm

theorem addToGroup_flat (gs : List (List Char × List FileRec)) (k : List Char) (f : FileRec) :
    (((addToGroup gs k f).map Prod.snd).flatten).Perm
      (((gs.map Prod.snd).flatten) ++ [f]) := by
  induction gs with
  | nil => simp [addToGroup]
  | cons g rest ih =>
    rcases g with ⟨k', fs⟩
    by_cases hk : k' = k
    · simp only [addToGroup, if_pos hk, List.map_cons, List.flatten_cons]
      rw [List.append_assoc, List.append_assoc]
      exact List.Perm.append_left fs (List.perm_append_comm)
    · simp only [addToGroup, if_neg hk, List.map_cons, List.flatten_cons]
      rw [List.append_assoc]
      exact List.Perm.append_left fs ih

theorem groupFold_flat (files : List FileRec) (gs : List (List Char × List FileRec)) :
    ((((files.foldl (fun gs f => addToGroup gs (extOf f) f) gs).map Prod.snd).flatten)).Perm
      (((gs.map Prod.snd).flatten) ++ files) := by
  induction files generalizing gs with
  | nil => simp
  | cons f fs ih =>
    simp only [List.foldl_cons]
    refine (ih (addToGroup gs (extOf f) f)).trans ?_
    refine (List.Perm.append_right fs (addToGroup_flat gs (extOf f) f)).trans ?_
    rw [List.append_assoc]
    exact List.Perm.refl _

theorem groupByExt_flat (files : List FileRec) :
    (((groupByExt files).map Prod.snd).flatten).Perm files := by
  have := groupFold_flat files []
  simpa [groupByExt] using this

theorem groupsFold_eq (s : Nat) (groups : List (List Char × List FileRec))
    (cs : List (List FileRec)) (r : List FileRec) :
    groups.foldl (fun cr g => procSlices s cr (chunkSlices s g.2)) (cs, r) =
      (cs ++ (groups.map (fun g => fullOf s g.2)).flatten,
       r ++ (groups.map (fun g => remOf s g.2)).flatten) := by
  induction groups generalizing cs r with
  | nil => simp
  | cons g rest ih =>
    simp only [List.foldl_cons, List.map_cons, List.flatten_cons]
    rw [show procSlices s (cs, r) (chunkSlices s g.2) = (cs ++ fullOf s g.2, r ++ remOf s g.2) from
      procSlices_acc s (chunkSlices s g.2) cs r]
    rw [ih]
    simp [List.append_assoc]

theorem chunk_files_eq (files : List FileRec) (s : Nat) :
    chunk_files files s =
      ((groupByExt files).map (fun g => fullOf s g.2)).flatten ++
        chunkSlices s (((groupByExt files).map (fun g => remOf s g.2)).flatten) := by
  unfold chunk_files
  dsimp only
  rw [groupsFold_eq]
  simp

theorem chunks_rem_perm (s : Nat) (hs : 0 < s) (gs : List (List Char × List FileRec)) :
    (((gs.map (fun g => fullOf s g.2)).flatten).flatten ++
        (gs.map (fun g => remOf s g.2)).flatten).Perm ((gs.map Prod.snd).flatten) := by
  induction gs with
  | nil => simp
  | cons g rest ih =>
    simp only [List.map_cons, List.flatten_cons, List.flatten_append]
    have hg := (fullOf_remOf_spec s hs g.2).1
    have p1 : ((fullOf s g.2).flatten ++ ((rest.map (fun g => fullOf s g.2)).flatten).flatten ++
        (remOf s g.2 ++ (rest.map (fun g => remOf s g.2)).flatten)).Perm
        (((fullOf s g.2).flatten ++ remOf s g.2) ++
          (((rest.map (fun g => fullOf s g.2)).flatten).flatten ++
            (rest.map (fun g => remOf s g.2)).flatten)) := by
      rw [List.append_assoc, List.append_assoc]
      apply List.Perm.append_left
      rw [← List.append_assoc, ← List.append_assoc]
      exact List.Perm.append_right _ List.perm_append_comm
    refine p1.trans ?_
    rw [hg]
    exact List.Perm.append_left g.2 ih

theorem sumDecomp (s : Nat) (L : List Nat) :
    L.sum = s * (L.map (· / s)).sum + (L.map (· % s)).sum := by
  induction L with
  | nil => simp
  | cons a L ih =>
    simp only [List.map_cons, List.sum_cons]
    conv_lhs => rw [← Nat.div_add_mod a s, ih]
    ring

theorem ceilDivAdd (s F R : Nat) (hs : 0 < s) :
    (s * F + R + s - 1) / s = F + (R + s - 1) / s := by
  have h1 : s * F + R + s - 1 = R + s - 1 + s * F := by
    generalize s * F = P
    omega
  rw [h1, Nat.add_mul_div_left _ F hs]
  omega

theorem flat_lengths (s : Nat) (hs : 0 < s) (gs : List (List Char × List FileRec)) :
    ((gs.map (fun g => fullOf s g.2)).flatten).length =
        (gs.map (fun g => g.2.length / s)).sum ∧
      ((gs.map (fun g => remOf s g.2)).flatten).length =
        (gs.map (fun g => g.2.length % s)).sum := by
  induction gs with
  | nil => simp
  | cons g rest ih =>
    simp only [List.map_cons, List.flatten_cons, List.length_append, List.sum_cons]
    rw [ih.1, ih.2, fullOf_len s hs, remOf_len s hs]
    exact ⟨rfl, rfl⟩

theorem chunk_files_perm (files : List FileRec) (s : Nat) (hs : 0 < s) :
    ((chunk_files files s).flatten).Perm files := by
  rw [chunk_files_eq, List.flatten_append, chunkSlices_flatten s hs]
  exact (chunks_rem_perm s hs (groupByExt files)).trans (groupByExt_flat files)

theorem chunk_files_sizes (files : List FileRec) (s : Nat) (hs : 0 < s)
    (c : List FileRec) (hc : c ∈ chunk_files files s) : c.length ≤ s ∧ c ≠ [] := by
  rw [chunk_files_eq] at hc
  rcases List.mem_append.mp hc with hc1 | hc2
  · rcases List.mem_flatten.mp hc1 with ⟨l, hl, hcl⟩
    rcases List.mem_map.mp hl with ⟨g, _, rfl⟩
    have := (fullOf_remOf_spec s hs g.2).2.1 c hcl
    constructor
    · omega
    · intro contra
      rw [contra] at this
      simp at this
      omega
  · exact mem_chunkSlices hc2

theorem chunk_files_count (files : List FileRec) (s : Nat) (hs : 0 < s) :
    (chunk_files files s).length = (files.length + s - 1) / s := by
  rw [chunk_files_eq, List.length_append, length_chunkSlices s hs]
  rw [(flat_lengths s hs (groupByExt files)).1, (flat_lengths s hs (groupByExt files)).2]
  have hflen : files.length = (((groupByExt files).map Prod.snd).flatten).length :=
    ((groupByExt_flat files).length_eq).symm
  rw [hflen, List.length_flatten, List.map_map]
  have hmapeq : ((groupByExt files).map (List.length ∘ Prod.snd)) =
      (groupByExt files).map (fun g => g.2.length) := rfl
  rw [hmapeq]
  have hdec := sumDecomp s ((groupByExt files).map (fun g => g.2.length))
  rw [List.map_map, List.map_map] at hdec
  have h1 : ((groupByExt files).map ((· / s) ∘ fun g => g.2.length)) =
      (groupByExt files).map (fun g => g.2.length / s) := rfl
  have h2 : ((groupByExt files).map ((· % s) ∘ fun g => g.2.length)) =
      (groupByExt files).map (fun g => g.2.length % s) := rfl
  rw [h1, h2] at hdec
  rw [hdec, ceilDivAdd _ _ _ hs]


/-- Claim C1 (amended): for every file list and positive chunk size `n`,
`chunk_files` returns a partition of the input up to permutation — the
chunks concatenate back to a permutation of the input (no file dropped or
duplicated), every chunk has length at most `n`, and exactly
`ceil(len(files)/n)` chunks are produced.  The original order is NOT
preserved in general because files are grouped by extension first (see the
counterexample). -/
theorem C1_chunk_files_partition (files : List FileRec) (n : Nat) (hn : 0 < n) :
    ((chunk_files files n).flatten).Perm files ∧
    (∀ c ∈ chunk_files files n, c.length ≤ n) ∧
    (chunk_files files n).length = (files.length + n - 1) / n :=
  ⟨chunk_files_perm files n hn,
   fun c hc => (chunk_files_sizes files n hn c hc).1,
   chunk_files_count files n hn⟩

/-- Witness for C1 at a concrete input. -/
theorem C1_chunk_files_partition_witness :
    0 < 2 ∧
      (((chunk_files [⟨"a.py", ""⟩, ⟨"b.js", ""⟩, ⟨"c.py", ""⟩] 2).flatten).Perm
          [⟨"a.py", ""⟩, ⟨"b.js", ""⟩, ⟨"c.py", ""⟩] ∧
        (∀ c ∈ chunk_files [⟨"a.py", ""⟩, ⟨"b.js", ""⟩, ⟨"c.py", ""⟩] 2, c.length ≤ 2) ∧
        (chunk_files [⟨"a.py", ""⟩, ⟨"b.js", ""⟩, ⟨"c.py", ""⟩] 2).length =
          (([⟨"a.py", ""⟩, ⟨"b.js", ""⟩, ⟨"c.py", ""⟩] :
              List FileRec).length + 2 - 1) / 2) :=
  ⟨by decide, C1_chunk_files_partition [⟨"a.py", ""⟩, ⟨"b.js", ""⟩, ⟨"c.py", ""⟩] 2 (by decide)⟩

/-- Counterexample to C1 as stated: on `[a.py, b.js, c.py]` with chunk
size 2 the produced chunks are `[[a.py, c.py], [b.js]]`, whose
concatenation `[a.py, c.py, b.js]` is not the input list — grouping by
extension reorders the files, so the chunks do not concatenate back to
the original order. -/
theorem C1_chunk_files_order_counterexample :
    (chunk_files [⟨"a.py", ""⟩, ⟨"b.js", ""⟩, ⟨"c.py", ""⟩] 2).flatten ≠
      [⟨"a.py", ""⟩, ⟨"b.js", ""⟩, ⟨"c.py", ""⟩] ∧
    chunk_files [⟨"a.py", ""⟩, ⟨"b.js", ""⟩, ⟨"c.py", ""⟩] 2 =
      [[⟨"a.py", ""⟩, ⟨"c.py", ""⟩], [⟨"b.js", ""⟩]] := by decide

/-! ## LLM services and the client pool
(backend/app/services/LLM_service.py, multithreading_service.py) -/

/-- Providers accepted by `create_language_service`'s if/elif chain. -/
inductive Provider where
  | deepseek
  | openai
  | groq
  | claude
  | quasar
deriving DecidableEq, Repr

/-- Model identifier assigned by each service class in `_initialize_client`. -/
def modelName : Provider → String
  | .deepseek => "deepseek-chat"
  | .openai => "gpt-4o"
  | .groq => "llama-3.1-8b-instant"
  | .claude => "claude-3-7-sonnet-20250219"
  | .quasar => "openrouter/quasar-alpha"

/-- A constructed language-model service object: the backend it talks to
and the model string it was initialised with. -/
structure Service where
  provider : Provider
  model : String
deriving DecidableEq, Repr

/-- The factory `create_language_service(provider = "deepseek", api_key = None)`.
Python takes a string; a value matching no branch of the if/elif chain
(e.g. `None`, passed by `LLMClientPool._initialize_clients` when the pool
was built with `llm_provider=None`) falls off the end and returns Python
`None`, modelled by `Option`.  The default argument is `"deepseek"`. -/
def create_language_service (provider : Option Provider := some Provider.deepseek) :
    Option Service :=
  match provider with
  | some p => some ⟨p, modelName p⟩
  | none => none

/-- Pool state of `LLMClientPool`: the `clients` list, the configured
`size` and `llm_provider`. -/
structure LLMClientPool where
  clients : List (Option Service)
  size : Nat
  llm_provider : Option Provider
deriving DecidableEq, Repr

/-- Construction `LLMClientPool(size, llm_provider)`: `_initialize_clients`
appends `size` results of `create_language_service(self.llm_provider)`. -/
def LLMClientPool.init (size : Nat) (llm_provider : Option Provider) : LLMClientPool :=
  ⟨List.replicate size (create_language_service llm_provider), size, llm_provider⟩

/-- The method `get_client`: pops the last client (`self.clients.pop()`);
when the list is empty it instead returns `create_language_service()` —
the factory called with NO provider argument. -/
def LLMClientPool.get_client (pool : LLMClientPool) : Option Service × LLMClientPool :=
  match pool.clients.getLast? with
  | none => (create_language_service, pool)
  | some c => (c, { pool with clients := pool.clients.dropLast })

/-- The method `return_client`: appends the client back. -/
def LLMClientPool.return_client (pool : LLMClientPool) (c : Option Service) : LLMClientPool :=
  { pool with clients := pool.clients ++ [c] }

/-- Claim C9: when the pool is empty, `get_client` builds the overflow
client via the factory with no provider argument, so it uses the factory
default `deepseek` regardless of the provider the pool was configured
with; pooled clients of a groq-configured pool are groq-backed, so an
overflow client is backed by a different LLM backend. -/
theorem C9_overflow_client_default_provider (pool : LLMClientPool) (size : Nat)
    (hempty : pool.clients = []) :
    (pool.get_client).1 = create_language_service ∧
    (pool.get_client).1 = some ⟨Provider.deepseek, "deepseek-chat"⟩ ∧
    (∀ c ∈ (LLMClientPool.init size (some Provider.groq)).clients,
      c = some ⟨Provider.groq, "llama-3.1-8b-instant"⟩) ∧
    (pool.get_client).1 ≠ some ⟨Provider.groq, "llama-3.1-8b-instant"⟩ := by
  have hget : pool.get_client = (create_language_service, pool) := by
    unfold LLMClientPool.get_client
    rw [hempty]
    rfl
  refine ⟨by rw [hget], by rw [hget]; rfl, ?_, ?_⟩
  · intro c hc
    have := List.eq_of_mem_replicate hc
    simpa [create_language_service, modelName] using this
  · rw [hget]
    show create_language_service ≠ some ⟨Provider.groq, "llama-3.1-8b-instant"⟩
    decide

/-- Witness for C9: a drained groq-configured pool of size 3. -/
theorem C9_overflow_client_default_provider_witness :
    (⟨[], 3, some Provider.groq⟩ : LLMClientPool).clients = [] ∧
    ((⟨[], 3, some Provider.groq⟩ : LLMClientPool).get_client.1 = create_language_service ∧
      (⟨[], 3, some Provider.groq⟩ : LLMClientPool).get_client.1 =
        some ⟨Provider.deepseek, "deepseek-chat"⟩ ∧
      (∀ c ∈ (LLMClientPool.init 3 (some Provider.groq)).clients,
        c = some ⟨Provider.groq, "llama-3.1-8b-instant"⟩) ∧
      (⟨[], 3, some Provider.groq⟩ : LLMClientPool).get_client.1 ≠
        some ⟨Provider.groq, "llama-3.1-8b-instant"⟩) :=
  ⟨rfl, C9_overflow_client_default_provider ⟨[], 3, some Provider.groq⟩ 3 rfl⟩

/-! ## Batch analyzer (backend/app/api/endpoints/analysis.py, analyze_file_batch,
and the variant in backend/app/api/endpoints/streaming.py)

Network, prompt generation, model calls and `json.loads` are modelled as
oracles delivering either a value or a raised Python exception
(`Except`).  The outer `try/except Exception` of the Python function is
the final `match` converting every propagated error into `[]`. -/

/-- A raised Python exception, as relevant to the batch analyzer. -/
inductive PyErr where
  | jsonDecode (msg : String)
  | other (msg : String)
deriving DecidableEq, Repr

/-- The nested `code_snippets` dictionary of a recommendation. -/
structure CodeSnippets where
  before : String
  after : String
deriving DecidableEq, Repr

/-- One recommendation record, mirroring the dictionary shape produced by
the batch analyzer. -/
structure Recommendation where
  title : String
  description : String
  file_path : String
  severity : String
  category : String
  action_items : List String
  code_snippets : CodeSnippets
  references : List String
deriving DecidableEq, Repr

/-- The synthetic record built on `json.JSONDecodeError` in
`analyze_file_batch`; `emsg` is `str(e)`. -/
def jsonParsingErrorRec (emsg : String) : Recommendation :=
  ⟨"JSON Parsing Error",
   "Failed to parse model response: " ++ emsg ++
     ". This is likely due to an invalid JSON format returned by the model.",
   "N/A", "LOW", "INFRASTRUCTURE",
   ["Retry the analysis", "Check model response format"],
   ⟨"N/A", "N/A"⟩, []⟩

/-- A parsed `json.loads` result: a list of recommendation records, some
other value supporting `len()` (dict, str), or a value without `len()`
(int, float, bool, None) on which the subsequent logging call raises
`TypeError`. -/
inductive ParsedVal where
  | vlist (recs : List Recommendation)
  | withLen (n : Nat)
  | noLen
deriving DecidableEq, Repr

/-- Python `len(...)` on a parsed value. -/
def pyLen : ParsedVal → Except PyErr Nat
  | .vlist l => .ok l.length
  | .withLen n => .ok n
  | .noLen => .error (.other "TypeError: object of this type has no len()")

/-- Oracles for one execution of `analyze_file_batch`: the outcome of an
overflow `create_language_service()` call, of `get_file_analysis_prompt`,
of `call_model`, and the (deterministic) `json.loads`. -/
structure BatchEnv where
  fresh : Except PyErr (Option Service)
  promptOf : Option Service → Except PyErr String
  callModel : Option Service → String → Except PyErr String
  parse : String → Except String ParsedVal

/-- Outcome of `client_pool.get_client()` at the top of the function:
the acquired client and the pool list afterwards, or a raised error
(overflow construction failing), with the pool list at raise time. -/
def acquireClient (env : BatchEnv) (pool : List (Option Service)) :
    Except (PyErr × List (Option Service)) (Option Service × List (Option Service)) :=
  match pool.getLast? with
  | none =>
    match env.fresh with
    | .error e => .error (e, pool)
    | .ok c => .ok (c, pool)
  | some c => .ok (c, pool.dropLast)

/-- Body of `analyze_file_batch` between `try:` and `except Exception`:
acquire a client, build the prompt, call the model, parse; on
`JSONDecodeError` return the client and the synthetic record; pass other
raised errors outward together with the pool state at raise time.  The
`len(recommendations)` logging call sits before `return_client`, so a
`TypeError` there leaks the client. -/
def analyze_file_batch_body (env : BatchEnv) (pool : List (Option Service)) :
    Except (PyErr × List (Option Service)) (ParsedVal × List (Option Service)) :=
  match acquireClient env pool with
  | .error ep => .error ep
  | .ok (c, p1) =>
    match env.promptOf c with
    | .error e => .error (e, p1)
    | .ok prompt =>
      match env.callModel c prompt with
      | .error e => .error (e, p1)
      | .ok resp =>
        match env.parse resp with
        | .error emsg => .ok (.vlist [jsonParsingErrorRec emsg], p1 ++ [c])
        | .ok v =>
          match pyLen v with
          | .error e => .error (e, p1)
          | .ok _ => .ok (v, p1 ++ [c])

/-- The function `analyze_file_batch(files_batch, client_pool, batch_index)`
in analysis.py: the outer `except Exception` turns every propagated error
into `[]`.  Result: the returned Python value and the pool list after the
call. -/
def analyze_file_batch (env : BatchEnv) (pool : List (Option Service)) :
    ParsedVal × List (Option Service) :=
  match analyze_file_batch_body env pool with
  | .ok r => r
  | .error (_, p) => (.vlist [], p)

/-- Body of the streaming.py variant of `analyze_file_batch`: it acquires
a client (never returned on any path), returns `[]` when no queue is
registered for the `analysis_id`, and otherwise reads the undefined local
`analysis_response`, raising `NameError`. -/
def streaming_analyze_file_batch_body (env : BatchEnv) (hasQueue : Bool)
    (pool : List (Option Service)) :
    Except (PyErr × List (Option Service)) (List Recommendation × List (Option Service)) :=
  match acquireClient env pool with
  | .error ep => .error ep
  | .ok (_c, p1) =>
    if hasQueue then .error (.other "NameError: name analysis_response is not defined", p1)
    else .ok ([], p1)

/-- The streaming.py `analyze_file_batch`: outer `except Exception`
converts every propagated error into `[]`. -/
def streaming_analyze_file_batch (env : BatchEnv) (hasQueue : Bool)
    (pool : List (Option Service)) : List Recommendation × List (Option Service) :=
  match streaming_analyze_file_batch_body env hasQueue pool with
  | .ok r => r
  | .error (_, p) => ([], p)

/-- Claim C2: neither variant of `analyze_file_batch` raises; when the
model response fails to parse as JSON the result is `[]` (streaming
variant) or the single synthetic record titled "JSON Parsing Error"
(analysis variant); on any other raised exception the result is `[]`;
and in all cases the analysis variant returns `[]`, the synthetic
one-element list, or the parsed value. -/
theorem C2_analyze_file_batch_never_raises (env : BatchEnv)
    (pool : List (Option Service)) (hasQueue : Bool) :
    ((analyze_file_batch env pool).1 = .vlist [] ∨
      (∃ emsg, (analyze_file_batch env pool).1 = .vlist [jsonParsingErrorRec emsg]) ∨
      (∃ resp v, env.parse resp = .ok v ∧ (analyze_file_batch env pool).1 = v)) ∧
    (∀ c p1 prompt resp emsg,
      acquireClient env pool = .ok (c, p1) →
      env.promptOf c = .ok prompt →
      env.callModel c prompt = .ok resp →
      env.parse resp = .error emsg →
      (analyze_file_batch env pool).1 = .vlist [jsonParsingErrorRec emsg] ∧
        (jsonParsingErrorRec emsg).title = "JSON Parsing Error") ∧
    (∀ e p, acquireClient env pool = .error (e, p) →
      (analyze_file_batch env pool).1 = .vlist []) ∧
    (∀ c p1 e, acquireClient env pool = .ok (c, p1) →
      env.promptOf c = .error e → (analyze_file_batch env pool).1 = .vlist []) ∧
    (∀ c p1 prompt e, acquireClient env pool = .ok (c, p1) →
      env.promptOf c = .ok prompt → env.callModel c prompt = .error e →
      (analyze_file_batch env pool).1 = .vlist []) ∧
    ((streaming_analyze_file_batch env hasQueue pool).1 = []) := by
  refine ⟨?_, ?_, ?_, ?_, ?_, ?_⟩
  · rcases hacq : acquireClient env pool with ep | ⟨c, p1⟩
    · left
      simp only [analyze_file_batch, analyze_file_batch_body, hacq]
    · rcases hpr : env.promptOf c with e | prompt
      · left
        simp only [analyze_file_batch, analyze_file_batch_body, hacq, hpr]
      · rcases hcm : env.callModel c prompt with e | resp
        · left
          simp only [analyze_file_batch, analyze_file_batch_body, hacq, hpr, hcm]
        · rcases hp : env.parse resp with emsg | v
          · right
            left
            refine ⟨emsg, ?_⟩
            simp only [analyze_file_batch, analyze_file_batch_body, hacq, hpr, hcm, hp]
          · rcases hl : pyLen v with e | n
            · left
              simp only [analyze_file_batch, analyze_file_batch_body, hacq, hpr, hcm, hp, hl]
            · right
              right
              refine ⟨resp, v, hp, ?_⟩
              simp only [analyze_file_batch, analyze_file_batch_body, hacq, hpr, hcm, hp, hl]
  · intro c p1 prompt resp emsg hacq hpr hcm hp
    refine ⟨?_, rfl⟩
    simp only [analyze_file_batch, analyze_file_batch_body, hacq, hpr, hcm, hp]
  · intro e p hacq
    simp only [analyze_file_batch, analyze_file_batch_body, hacq]
  · intro c p1 e hacq hpr
    simp only [analyze_file_batch, analyze_file_batch_body, hacq, hpr]
  · intro c p1 prompt e hacq hpr hcm
    simp only [analyze_file_batch, analyze_file_batch_body, hacq, hpr, hcm]
  · rcases hacq : acquireClient env pool with ep | ⟨c, p1⟩
    · simp only [streaming_analyze_file_batch, streaming_analyze_file_batch_body, hacq]
    · cases hasQueue <;>
        simp only [streaming_analyze_file_batch, streaming_analyze_file_batch_body, hacq,
          if_true, if_false, Bool.false_eq_true, ite_false, ite_true]

/-- Oracle set on which `json.loads` fails: used as a concrete witness
environment. -/
def batchEnvJsonFail : BatchEnv :=
  ⟨.ok none, fun _ => .ok "prompt", fun _ _ => .ok "not json", fun _ => .error "bad json"⟩

/-- Witness for C2: with a parse-failing environment the analysis variant
returns the single synthetic record and the streaming variant returns `[]`. -/
theorem C2_analyze_file_batch_never_raises_witness :
    (analyze_file_batch batchEnvJsonFail []).1 = .vlist [jsonParsingErrorRec "bad json"] ∧
    (streaming_analyze_file_batch batchEnvJsonFail false []).1 = [] :=
  ⟨((C2_analyze_file_batch_never_raises batchEnvJsonFail [] false).2.1
      none [] "prompt" "not json" "bad json" rfl rfl rfl rfl).1,
   (C2_analyze_file_batch_never_raises batchEnvJsonFail [] false).2.2.2.2.2⟩

/-- Claim C3 (amended): the client is returned to the pool on the success
exits (any parse result on which the `len()` logging succeeds — list,
dict or string) and on the JSON-parse-failure exit of analysis.py's
`analyze_file_batch`, so the pool count is preserved there; but on any
other exception raised after acquisition — a raising prompt build, a
raising model call, or `len()` raising `TypeError` on a non-sized parse
result — the client is NOT returned and the pool shrinks by one; and the
streaming.py variant never returns the client on any path. -/
theorem C3_client_release_on_normal_paths (env : BatchEnv)
    (pool : List (Option Service)) (hasQueue : Bool) :
    (∀ c p1 prompt resp v n, acquireClient env pool = .ok (c, p1) →
      env.promptOf c = .ok prompt → env.callModel c prompt = .ok resp →
      env.parse resp = .ok v → pyLen v = .ok n →
      (analyze_file_batch env pool).2 = p1 ++ [c]) ∧
    (∀ c p1 prompt resp emsg, acquireClient env pool = .ok (c, p1) →
      env.promptOf c = .ok prompt → env.callModel c prompt = .ok resp →
      env.parse resp = .error emsg →
      (analyze_file_batch env pool).2 = p1 ++ [c]) ∧
    (∀ c p1 e, acquireClient env pool = .ok (c, p1) →
      env.promptOf c = .error e →
      (analyze_file_batch env pool).2 = p1) ∧
    (∀ c p1 prompt e, acquireClient env pool = .ok (c, p1) →
      env.promptOf c = .ok prompt → env.callModel c prompt = .error e →
      (analyze_file_batch env pool).2 = p1) ∧
    (∀ c p1 prompt resp v e, acquireClient env pool = .ok (c, p1) →
      env.promptOf c = .ok prompt → env.callModel c prompt = .ok resp →
      env.parse resp = .ok v → pyLen v = .error e →
      (analyze_file_batch env pool).2 = p1) ∧
    (∀ c p1, acquireClient env pool = .ok (c, p1) → pool ≠ [] →
      p1 = pool.dropLast ∧ (p1 ++ [c]).length = pool.length ∧
        p1.length + 1 = pool.length) ∧
    ((streaming_analyze_file_batch env hasQueue pool).2 = pool.dropLast) := by
  refine ⟨?_, ?_, ?_, ?_, ?_, ?_, ?_⟩
  · intro c p1 prompt resp v n hacq hpr hcm hp hl
    simp only [analyze_file_batch, analyze_file_batch_body, hacq, hpr, hcm, hp, hl]
  · intro c p1 prompt resp emsg hacq hpr hcm hp
    simp only [analyze_file_batch, analyze_file_batch_body, hacq, hpr, hcm, hp]
  · intro c p1 e hacq hpr
    simp only [analyze_file_batch, analyze_file_batch_body, hacq, hpr]
  · intro c p1 prompt e hacq hpr hcm
    simp only [analyze_file_batch, analyze_file_batch_body, hacq, hpr, hcm]
  · intro c p1 prompt resp v e hacq hpr hcm hp hl
    simp only [analyze_file_batch, analyze_file_batch_body, hacq, hpr, hcm, hp, hl]
  · intro c p1 hacq hne
    rcases hg : pool.getLast? with _ | x
    · exact absurd (List.getLast?_eq_none_iff.mp hg) hne
    · unfold acquireClient at hacq
      rw [hg] at hacq
      have h1 : p1 = pool.dropLast := by
        injection hacq with h
        exact (congrArg Prod.snd h).symm
      refine ⟨h1, ?_, ?_⟩
      · rw [h1, List.length_append, List.length_dropLast, List.length_singleton]
        have : 0 < pool.length := List.length_pos.mpr hne
        omega
      · rw [h1, List.length_dropLast]
        have : 0 < pool.length := List.length_pos.mpr hne
        omega
  · rcases hacq : acquireClient env pool with ep | ⟨c, p1⟩
    · have hnil : pool = [] := by
        rcases hg : pool.getLast? with _ | x
        · exact List.getLast?_eq_none_iff.mp hg
        · unfold acquireClient at hacq
          simp only [hg] at hacq
          exact absurd hacq (by simp)
      subst hnil
      have hep : ep.2 = [] := by
        unfold acquireClient at hacq
        simp only [List.getLast?_nil] at hacq
        rcases hacq2 : env.fresh with e2 | c2 <;> simp only [hacq2] at hacq
        · injection hacq with h
          rw [← h]
        · exact absurd hacq (by simp)
      simp only [streaming_analyze_file_batch, streaming_analyze_file_batch_body, hacq,
        List.dropLast_nil]
      exact hep
    · have hp1 : p1 = pool.dropLast := by
        unfold acquireClient at hacq
        rcases hg : pool.getLast? with _ | x <;> simp only [hg] at hacq
        · rcases hacq2 : env.fresh with e2 | c2 <;> simp only [hacq2] at hacq
          · exact absurd hacq (by simp)
          · injection hacq with h
            have h2 : pool = p1 := congrArg Prod.snd h
            rw [← h2, List.getLast?_eq_none_iff.mp hg]
            rfl
        · injection hacq with h
          have h2 : pool.dropLast = p1 := congrArg Prod.snd h
          exact h2.symm
      cases hasQueue <;>
        simp only [streaming_analyze_file_batch, streaming_analyze_file_batch_body, hacq,
          Bool.false_eq_true, if_true, if_false, ite_false, ite_true, hp1]

/-- Oracle set whose model call raises a network error. -/
def batchEnvCallFail : BatchEnv :=
  ⟨.ok none, fun _ => .ok "prompt", fun _ _ => .error (.other "network down"),
   fun _ => .ok (.vlist [])⟩

/-- Oracle set whose prompt build raises. -/
def batchEnvPromptFail : BatchEnv :=
  ⟨.ok none, fun _ => .error (.other "prompt failure"), fun _ _ => .ok "resp",
   fun _ => .ok (.vlist [])⟩

/-- Oracle set whose response parses to a value without `len()` (e.g. an
integer), making the logging call raise `TypeError`. -/
def batchEnvNoLen : BatchEnv :=
  ⟨.ok none, fun _ => .ok "prompt", fun _ _ => .ok "resp", fun _ => .ok .noLen⟩

/-- Oracle set whose response parses to a non-list sized value (a dict),
exercising the success exit with a non-list parse result. -/
def batchEnvDictParse : BatchEnv :=
  ⟨.ok none, fun _ => .ok "prompt", fun _ _ => .ok "resp", fun _ => .ok (.withLen 3)⟩

/-- Counterexample to C3 as stated: with one pooled client and a failing
model call, `analyze_file_batch` exits through the outer `except` without
returning the client, so the pool count drops from 1 to 0. -/
theorem C3_client_release_counterexample :
    (analyze_file_batch batchEnvCallFail
        [some ⟨Provider.groq, "llama-3.1-8b-instant"⟩]).2.length = 0 ∧
    ([some ⟨Provider.groq, "llama-3.1-8b-instant"⟩] : List (Option Service)).length = 1 := by
  constructor
  · rfl
  · rfl

/-- Witness for C3, exercising every clause on a one-client pool: the pool
is restored on the parse-failure exit and on the success exit with a
non-list parse result, and the client leaks on a raising prompt build, a
raising model call, and a `len()` `TypeError`; the streaming variant
drops the client. -/
theorem C3_client_release_on_normal_paths_witness :
    (analyze_file_batch batchEnvJsonFail
        [some ⟨Provider.groq, "llama-3.1-8b-instant"⟩]).2 =
      [some ⟨Provider.groq, "llama-3.1-8b-instant"⟩] ∧
    (analyze_file_batch batchEnvDictParse
        [some ⟨Provider.groq, "llama-3.1-8b-instant"⟩]).2 =
      [some ⟨Provider.groq, "llama-3.1-8b-instant"⟩] ∧
    (analyze_file_batch batchEnvPromptFail
        [some ⟨Provider.groq, "llama-3.1-8b-instant"⟩]).2 = [] ∧
    (analyze_file_batch batchEnvCallFail
        [some ⟨Provider.groq, "llama-3.1-8b-instant"⟩]).2 = [] ∧
    (analyze_file_batch batchEnvNoLen
        [some ⟨Provider.groq, "llama-3.1-8b-instant"⟩]).2 = [] ∧
    (streaming_analyze_file_batch batchEnvJsonFail true
        [some ⟨Provider.groq, "llama-3.1-8b-instant"⟩]).2 = [] :=
  ⟨(C3_client_release_on_normal_paths batchEnvJsonFail
      [some ⟨Provider.groq, "llama-3.1-8b-instant"⟩] true).2.1
      (some ⟨Provider.groq, "llama-3.1-8b-instant"⟩) [] "prompt" "not json" "bad json"
      rfl rfl rfl rfl,
   (C3_client_release_on_normal_paths batchEnvDictParse
      [some ⟨Provider.groq, "llama-3.1-8b-instant"⟩] true).1
      (some ⟨Provider.groq, "llama-3.1-8b-instant"⟩) [] "prompt" "resp" (.withLen 3) 3
      rfl rfl rfl rfl rfl,
   (C3_client_release_on_normal_paths batchEnvPromptFail
      [some ⟨Provider.groq, "llama-3.1-8b-instant"⟩] true).2.2.1
      (some ⟨Provider.groq, "llama-3.1-8b-instant"⟩) [] (.other "prompt failure")
      rfl rfl,
   (C3_client_release_on_normal_paths batchEnvCallFail
      [some ⟨Provider.groq, "llama-3.1-8b-instant"⟩] true).2.2.2.1
      (some ⟨Provider.groq, "llama-3.1-8b-instant"⟩) [] "prompt" (.other "network down")
      rfl rfl rfl,
   (C3_client_release_on_normal_paths batchEnvNoLen
      [some ⟨Provider.groq, "llama-3.1-8b-instant"⟩] true).2.2.2.2.1
      (some ⟨Provider.groq, "llama-3.1-8b-instant"⟩) [] "prompt" "resp" .noLen
      (.other "TypeError: object of this type has no len()")
      rfl rfl rfl rfl rfl,
   (C3_client_release_on_normal_paths batchEnvJsonFail
      [some ⟨Provider.groq, "llama-3.1-8b-instant"⟩] true).2.2.2.2.2.2⟩

/-! ## Orchestrator merge (backend/app/api/endpoints/analysis.py,
analyze_repository collection loop)

The `as_completed` loop extends `all_recommendations` with each chunk
result in completion order; completion order is an arbitrary permutation
of the chunk-result list. -/

/-- The collection loop: `all_recommendations.extend(chunk_recommendations)`
for each completed future, folded over the results in completion order. -/
def collect_recommendations (results : List (List Recommendation)) : List Recommendation :=
  results.foldl (fun acc r => acc ++ r) []

theorem collect_foldl_acc (results : List (List Recommendation))
    (acc : List Recommendation) :
    results.foldl (fun acc r => acc ++ r) acc = acc ++ results.flatten := by
  induction results generalizing acc with
  | nil => simp
  | cons r rest ih =>
    simp only [List.foldl_cons, List.flatten_cons, ih, List.append_assoc]

theorem collect_eq_flatten (results : List (List Recommendation)) :
    collect_recommendations results = results.flatten := by
  unfold collect_recommendations
  rw [collect_foldl_acc]
  rfl

/-- Claim C7: for every list of per-chunk recommendation lists and every
permutation of their completion order, the merged list is the multiset
union of the per-chunk lists (a permutation of their concatenation), and
its length is the sum of the per-chunk lengths, independent of the
completion order. -/
theorem C7_merge_is_multiset_union (chunkResults completionOrder : List (List Recommendation))
    (hperm : completionOrder.Perm chunkResults) :
    (collect_recommendations completionOrder).Perm chunkResults.flatten ∧
    (collect_recommendations completionOrder).length =
      (chunkResults.map List.length).sum := by
  have hp : (collect_recommendations completionOrder).Perm chunkResults.flatten := by
    rw [collect_eq_flatten]
    exact hperm.flatten
  refine ⟨hp, ?_⟩
  rw [hp.length_eq, List.length_flatten]

/-- Witness for C7 at a two-chunk completion order swap. -/
theorem C7_merge_is_multiset_union_witness :
    ([[jsonParsingErrorRec "b"], [jsonParsingErrorRec "a"]] :
        List (List Recommendation)).Perm [[jsonParsingErrorRec "a"], [jsonParsingErrorRec "b"]] ∧
    ((collect_recommendations [[jsonParsingErrorRec "b"], [jsonParsingErrorRec "a"]]).Perm
        ([[jsonParsingErrorRec "a"], [jsonParsingErrorRec "b"]] :
          List (List Recommendation)).flatten ∧
      (collect_recommendations [[jsonParsingErrorRec "b"], [jsonParsingErrorRec "a"]]).length =
        (([[jsonParsingErrorRec "a"], [jsonParsingErrorRec "b"]] :
          List (List Recommendation)).map List.length).sum) :=
  ⟨by decide,
   C7_merge_is_multiset_union [[jsonParsingErrorRec "a"], [jsonParsingErrorRec "b"]]
     [[jsonParsingErrorRec "b"], [jsonParsingErrorRec "a"]] (by decide)⟩

/-! ## Batched file fetching (backend/app/services/github_service.py,
get_file_content_batch)

`_get_file_contents` (cache or network) is the oracle `fetch`; both of its
success exits return a record whose `path` equals the requested path. -/

/-- One fetched file record `{path, content}`. -/
structure FileContent where
  path : String
  content : String
deriving DecidableEq, Repr

/-- The method `get_file_content_batch(repo_url, file_paths)`: iterate the
requested paths in order, appending the record for each successful fetch
and skipping failures. -/
def get_file_content_batch (fetch : String → Option String) (paths : List String) :
    List FileContent :=
  paths.foldl
    (fun acc p =>
      match fetch p with
      | some c => acc ++ [⟨p, c⟩]
      | none => acc) []

theorem get_file_content_batch_acc (fetch : String → Option String) (paths : List String)
    (acc : List FileContent) :
    paths.foldl
        (fun acc p =>
          match fetch p with
          | some c => acc ++ [⟨p, c⟩]
          | none => acc) acc =
      acc ++ paths.filterMap (fun p => (fetch p).map (fun c => ⟨p, c⟩)) := by
  induction paths generalizing acc with
  | nil => simp
  | cons p rest ih =>
    simp only [List.foldl_cons, List.filterMap_cons]
    rcases hf : fetch p with _ | c
    · simp only [Option.map_none']
      exact ih acc
    · simp only [Option.map_some']
      rw [ih, List.append_assoc]
      rfl

theorem get_file_content_batch_eq (fetch : String → Option String) (paths : List String) :
    get_file_content_batch fetch paths =
      paths.filterMap (fun p => (fetch p).map (fun c => ⟨p, c⟩)) := by
  unfold get_file_content_batch
  rw [get_file_content_batch_acc]
  rfl

/-- Claim C10: `get_file_content_batch` yields at most one record per
requested path (it equals the `filterMap` of the per-path fetch), and the
sequence of result paths is a subsequence of the requested path list —
failed fetches are omitted without disturbing the relative order. -/
theorem C10_batch_subsequence (fetch : String → Option String) (paths : List String) :
    get_file_content_batch fetch paths =
      paths.filterMap (fun p => (fetch p).map (fun c => ⟨p, c⟩)) ∧
    ((get_file_content_batch fetch paths).map FileContent.path).Sublist paths ∧
    (get_file_content_batch fetch paths).length ≤ paths.length := by
  refine ⟨get_file_content_batch_eq fetch paths, ?_, ?_⟩
  · rw [get_file_content_batch_eq]
    induction paths with
    | nil => simp
    | cons p rest ih =>
      simp only [List.filterMap_cons]
      rcases hf : fetch p with _ | c
      · simp only [Option.map_none']
        exact ih.cons p
      · simp only [Option.map_some', List.map_cons]
        exact ih.cons₂ p
  · rw [get_file_content_batch_eq]
    exact List.length_filterMap_le _ _

/-! ## Event streaming (backend/app/api/endpoints/streaming.py)

The per-analysis queue contents are modelled as the finite list of items
dequeued by the generator; `json.dumps` of an event is an oracle `dumps`
applied to the event's tag and an opaque payload identifier.  The stream
registry `analysis_streams` is modelled by its key list. -/

/-- An item taken from the analysis queue: a dict event with a `type` tag
and opaque payload, or a non-dict value (skipped by the generator). -/
inductive QItem where
  | evt (tag : String) (payload : Nat)
  | nondict
deriving DecidableEq, Repr

/-- The member names of `AnalysisEventType` (models/schemas.py). -/
def knownEventTags : List String := ["PROGRESS", "RECOMMENDATION", "COMPLETE", "HEARTBEAT"]

/-- The body of `event_generator`'s while-loop over the dequeued items:
non-dicts are skipped; events whose tag is not an `AnalysisEventType`
member are dropped (loop continues); the serialized form is
`"data: " ++ dumps ++ "\n\n"`; only a `PROGRESS` event is yielded with the
loop continuing, and a `COMPLETE` event is yielded and breaks the loop —
the `if/elif` chain has no branch for the other two member tags. -/
def processEvents (dumps : String → Nat → String) : List QItem → List String
  | [] => []
  | .nondict :: rest => processEvents dumps rest
  | .evt tag payload :: rest =>
    if tag ∈ knownEventTags then
      if tag = "PROGRESS" then
        ("data: " ++ dumps tag payload ++ "\n\n") :: processEvents dumps rest
      else if tag = "COMPLETE" then ["data: " ++ dumps tag payload ++ "\n\n"]
      else processEvents dumps rest
    else processEvents dumps rest

/-- The function `event_generator(analysis_id)` run against registry state
`registry` with queue contents `items`: when the id is unknown it raises
the 404 `HTTPException` (flag `true`) touching nothing; otherwise it
processes events and, in its `finally` block, deletes the id from the
registry on every termination path.  Result: (raised-not-found, yielded
wire events, registry afterwards). -/
def event_generator (dumps : String → Nat → String) (registry : List String)
    (analysis_id : String) (items : List QItem) : Bool × List String × List String :=
  if analysis_id ∈ registry then
    (false, processEvents dumps items, registry.erase analysis_id)
  else (true, [], registry)

/-- The endpoint `start_analysis_stream`: registers a fresh id with an
empty queue and acknowledges it. -/
def start_analysis_stream (registry : List String) (fresh_id : String) :
    List String × String :=
  (registry ++ [fresh_id], fresh_id)

/-- Claim C4 (amended): dequeued events with unknown tags are dropped with
the loop continuing; of the known `AnalysisEventType` tags only `PROGRESS`
is serialized, yielded and followed by further processing, and `COMPLETE`
is serialized, yielded and terminates the loop — `RECOMMENDATION` and
`HEARTBEAT` events pass the validation but fall through the `if/elif`
chain and are silently not yielded; non-dict items are skipped. -/
theorem C4_event_generator_dispatch (dumps : String → Nat → String)
    (rest : List QItem) (tag : String) (payload : Nat) :
    (processEvents dumps (.evt "PROGRESS" payload :: rest) =
      ("data: " ++ dumps "PROGRESS" payload ++ "\n\n") :: processEvents dumps rest) ∧
    (processEvents dumps (.evt "COMPLETE" payload :: rest) =
      ["data: " ++ dumps "COMPLETE" payload ++ "\n\n"]) ∧
    (processEvents dumps (.evt "RECOMMENDATION" payload :: rest) =
      processEvents dumps rest) ∧
    (processEvents dumps (.evt "HEARTBEAT" payload :: rest) =
      processEvents dumps rest) ∧
    (tag ∉ knownEventTags →
      processEvents dumps (.evt tag payload :: rest) = processEvents dumps rest) ∧
    (processEvents dumps (.nondict :: rest) = processEvents dumps rest) := by
  refine ⟨rfl, rfl, rfl, rfl, ?_, rfl⟩
  intro hun
  have heq : processEvents dumps (.evt tag payload :: rest) =
      if tag ∈ knownEventTags then
        (if tag = "PROGRESS" then
          ("data: " ++ dumps tag payload ++ "\n\n") :: processEvents dumps rest
         else if tag = "COMPLETE" then ["data: " ++ dumps tag payload ++ "\n\n"]
         else processEvents dumps rest)
      else processEvents dumps rest := rfl
  rw [heq, if_neg hun]

/-- Witness for C4: an unknown tag is dropped. -/
theorem C4_event_generator_dispatch_witness :
    ("BOGUS" : String) ∉ knownEventTags ∧
    processEvents (fun t _ => t) [.evt "BOGUS" 0] = processEvents (fun t _ => t) [] :=
  ⟨by decide,
   (C4_event_generator_dispatch (fun t _ => t) [] "BOGUS" 0).2.2.2.2.1 (by decide)⟩

/-- Counterexample to C4 as stated: a dequeued `RECOMMENDATION` event has
a known type tag, yet the generator yields nothing for it — the `if/elif`
chain only emits `PROGRESS` and `COMPLETE`. -/
theorem C4_event_generator_counterexample :
    ("RECOMMENDATION" : String) ∈ knownEventTags ∧
    processEvents (fun t _ => t) [.evt "RECOMMENDATION" 0, .evt "COMPLETE" 1] =
      ["data: COMPLETE\n\n"] ∧
    ("data: RECOMMENDATION\n\n" : String) ∉
      processEvents (fun t _ => t) [.evt "RECOMMENDATION" 0, .evt "COMPLETE" 1] := by
  refine ⟨by decide, rfl, by decide⟩

/-- Claim C6: a generator run for a registered id deletes the id from the
registry on termination (in particular after yielding `COMPLETE`), and a
run for an unknown id raises not-found with the registry unchanged — no
entry is created. -/
theorem C6_stream_registry_cleanup (dumps : String → Nat → String)
    (registry : List String) (analysis_id : String) (items : List QItem)
    (hnodup : registry.Nodup) :
    (analysis_id ∈ registry →
      (event_generator dumps registry analysis_id items =
        (false, processEvents dumps items, registry.erase analysis_id) ∧
       analysis_id ∉ (event_generator dumps registry analysis_id items).2.2)) ∧
    (analysis_id ∉ registry →
      event_generator dumps registry analysis_id items = (true, [], registry)) := by
  constructor
  · intro hmem
    have hgen : event_generator dumps registry analysis_id items =
        (false, processEvents dumps items, registry.erase analysis_id) := by
      unfold event_generator
      rw [if_pos hmem]
    refine ⟨hgen, ?_⟩
    rw [hgen]
    exact hnodup.not_mem_erase
  · intro hmem
    unfold event_generator
    rw [if_neg hmem]

/-- Witness for C6: a two-entry registry, one completing stream and one
unknown id. -/
theorem C6_stream_registry_cleanup_witness :
    (["a", "b"] : List String).Nodup ∧
    (("a" : String) ∈ (["a", "b"] : List String)) ∧
    (event_generator (fun t _ => t) ["a", "b"] "a" [.evt "COMPLETE" 0] =
        (false, processEvents (fun t _ => t) [.evt "COMPLETE" 0],
          (["a", "b"] : List String).erase "a") ∧
      ("a" : String) ∉ (event_generator (fun t _ => t) ["a", "b"] "a" [.evt "COMPLETE" 0]).2.2) ∧
    (("zzz" : String) ∉ (["a", "b"] : List String)) ∧
    event_generator (fun t _ => t) ["a", "b"] "zzz" [.evt "COMPLETE" 0] =
      (true, [], ["a", "b"]) :=
  ⟨by decide, by decide,
   (C6_stream_registry_cleanup (fun t _ => t) ["a", "b"] "a" [.evt "COMPLETE" 0]
      (by decide)).1 (by decide),
   by decide,
   (C6_stream_registry_cleanup (fun t _ => t) ["a", "b"] "zzz" [.evt "COMPLETE" 0]
      (by decide)).2 (by decide)⟩

/-! ## Statistics service (backend/app/services/stats_service.py,
StatService.get_current_stats)

The counter store is modelled by `Option (String → Option String)`:
`none` is a missing/unconfigured redis client, otherwise a key-value map
whose values may be absent.  `int(value or 0)` of Python is modelled by
`orZeroInt`; a `ValueError`/`TypeError` in any of the three conversions is
caught and converted to all-zero counters. -/

/-- Python whitespace accepted by `int(str)`. -/
def pyWs (c : Char) : Bool :=
  c = ' ' || c = '\t' || c = '\n' || c = '\r' || c = '\x0b' || c = '\x0c'

/-- Decimal digits to a number. -/
def digitsToNat (l : List Char) : Nat :=
  l.foldl (fun n c => n * 10 + (c.toNat - '0'.toNat)) 0

/-- Python `int(s)` on a string: optional surrounding whitespace, an
optional sign, then at least one decimal digit; anything else raises
`ValueError` (`none` here). -/
def pyInt (s : String) : Option Int :=
  let t := ((s.toList.dropWhile pyWs).reverse.dropWhile pyWs).reverse
  match t with
  | '+' :: ds =>
    if ds ≠ [] ∧ ds.all Char.isDigit then some (digitsToNat ds) else none
  | '-' :: ds =>
    if ds ≠ [] ∧ ds.all Char.isDigit then some (-(digitsToNat ds : Int)) else none
  | ds =>
    if ds ≠ [] ∧ ds.all Char.isDigit then some (digitsToNat ds) else none

/-- The expression `int(v or 0)`: a missing value or an empty (falsy)
string becomes `0`; otherwise the string is converted, raising
`ValueError` (modelled by `.error`) when unparseable. -/
def orZeroInt (v : Option String) : Except String Int :=
  match v with
  | none => .ok 0
  | some s =>
    if s = "" then .ok 0
    else
      match pyInt s with
      | some n => .ok n
      | none => .error "ValueError: invalid literal for int()"

/-- The three counters returned by `get_current_stats`. -/
structure StatsTriple where
  repos : Int
  files : Int
  recommendations : Int
deriving DecidableEq, Repr

/-- Redis keys used by `StatService`. -/
def statsKeyRepos : String := "deployable:stats:repos"

def statsKeyFiles : String := "deployable:stats:files"

def statsKeyRecs : String := "deployable:stats:recommendations"

/-- The method `get_current_stats`: without a redis client it returns
zeros; otherwise it reads the three keys through a pipeline and converts
each with `int(v or 0)`; a `ValueError`/`TypeError` anywhere in the
conversions is caught and all three counters are reported as 0. -/
def get_current_stats (store : Option (String → Option String)) : StatsTriple :=
  match store with
  | none => ⟨0, 0, 0⟩
  | some f =>
    match orZeroInt (f statsKeyRepos), orZeroInt (f statsKeyFiles),
        orZeroInt (f statsKeyRecs) with
    | .ok a, .ok b, .ok c => ⟨a, b, c⟩
    | _, _, _ => ⟨0, 0, 0⟩

/-- Claim C8: `get_current_stats` is total (the model returns a triple for
every store state — the Python code catches the conversion errors), and
every missing or unparseable counter value is reported as 0: a missing
store yields all zeros, and for each of the three keys, if the stored
value is absent or fails to parse as an integer, that counter in the
result is 0. -/
theorem C8_get_current_stats_defaults (store : Option (String → Option String)) :
    (store = none → get_current_stats store = ⟨0, 0, 0⟩) ∧
    (∀ f, store = some f →
      ((f statsKeyRepos = none → (get_current_stats store).repos = 0) ∧
       (∀ s, f statsKeyRepos = some s → s ≠ "" → pyInt s = none →
          (get_current_stats store).repos = 0) ∧
       (f statsKeyFiles = none → (get_current_stats store).files = 0) ∧
       (∀ s, f statsKeyFiles = some s → s ≠ "" → pyInt s = none →
          (get_current_stats store).files = 0) ∧
       (f statsKeyRecs = none → (get_current_stats store).recommendations = 0) ∧
       (∀ s, f statsKeyRecs = some s → s ≠ "" → pyInt s = none →
          (get_current_stats store).recommendations = 0))) := by
  constructor
  · intro h
    rw [h]
    rfl
  · intro f hf
    subst hf
    have hmk : ∀ v : Option String, v = none → orZeroInt v = .ok 0 := by
      intro v hv
      rw [hv]
      rfl
    have hbad : ∀ (v : Option String) (s : String), v = some s → s ≠ "" → pyInt s = none →
        orZeroInt v = .error "ValueError: invalid literal for int()" := by
      intro v s hv hs hp
      rw [hv]
      show (if s = "" then Except.ok 0
            else match pyInt s with
              | some n => Except.ok n
              | none => Except.error "ValueError: invalid literal for int()") =
          Except.error "ValueError: invalid literal for int()"
      rw [if_neg hs, hp]
    refine ⟨?_, ?_, ?_, ?_, ?_, ?_⟩
    · intro h
      simp only [get_current_stats]
      rw [hmk _ h]
      rcases h2 : orZeroInt (f statsKeyFiles) with e | b <;>
        rcases h3 : orZeroInt (f statsKeyRecs) with e2 | c <;> rfl
    · intro s hv hs hp
      simp only [get_current_stats]
      rw [hbad _ s hv hs hp]
    · intro h
      simp only [get_current_stats]
      rw [hmk _ h]
      rcases h1 : orZeroInt (f statsKeyRepos) with e | a <;>
        rcases h3 : orZeroInt (f statsKeyRecs) with e2 | c <;> rfl
    · intro s hv hs hp
      simp only [get_current_stats]
      rw [hbad _ s hv hs hp]
      rcases h1 : orZeroInt (f statsKeyRepos) with e | a <;> rfl
    · intro h
      simp only [get_current_stats]
      rw [hmk _ h]
      rcases h1 : orZeroInt (f statsKeyRepos) with e | a <;>
        rcases h2 : orZeroInt (f statsKeyFiles) with e2 | b <;> rfl
    · intro s hv hs hp
      simp only [get_current_stats]
      rw [hbad _ s hv hs hp]
      rcases h1 : orZeroInt (f statsKeyRepos) with e | a <;>
        rcases h2 : orZeroInt (f statsKeyFiles) with e2 | b <;> rfl

/-- Witness for C8: a store with a parseable repos counter, a missing
files counter, and an unparseable recommendations counter. -/
theorem C8_get_current_stats_defaults_witness :
    (get_current_stats none = ⟨0, 0, 0⟩) ∧
    (get_current_stats (some (fun k =>
        if k = statsKeyRepos then some "7"
        else if k = statsKeyRecs then some "oops" else none))).files = 0 ∧
    (get_current_stats (some (fun k =>
        if k = statsKeyRepos then some "7"
        else if k = statsKeyRecs then some "oops" else none))).recommendations = 0 :=
  ⟨(C8_get_current_stats_defaults none).1 rfl,
   ((C8_get_current_stats_defaults (some (fun k =>
        if k = statsKeyRepos then some "7"
        else if k = statsKeyRecs then some "oops" else none))).2 _ rfl).2.2.1
     (by decide),
   ((C8_get_current_stats_defaults (some (fun k =>
        if k = statsKeyRepos then some "7"
        else if k = statsKeyRecs then some "oops" else none))).2 _ rfl).2.2.2.2.2
     "oops" (by decide) (by decide) (by decide)⟩

/-! ## JSON extraction (backend/app/services/LLM_service.py,
BaseLanguageModel._extract_json)

The regex `r"```(?:json)?\s*([\s\S]*?)```"` with `re.findall` is modelled
by a leftmost scan: at each position, an opening triple backtick is
matched, an optional literal `json` tag and a maximal whitespace run are
skipped (neither can contain a backtick, so this is exact), and the lazy
group ends at the next triple backtick; if no closing fence exists the
scan advances one character, as the regex engine does.  The model was
checked against CPython `re` on fence edge cases (overlapping backtick
runs, tag fragments, absent closers).  Python strings are modelled as
`List Char`; `.strip()` is `stripChars`.  `isValidJsonArray` is modelled
from the spec: it renders the claim's notion of a "valid JSON array"
(the grammar accepted by `json.loads`), which is not part of the
repository's code. -/

def stripChars (l : List Char) : List Char :=
  ((l.dropWhile pyWs).reverse.dropWhile pyWs).reverse

def isTripleAt (l : List Char) : Bool := l.take 3 == ['`', '`', '`']

def hasTriple : List Char → Bool
  | [] => false
  | c :: rest => isTripleAt (c :: rest) || hasTriple rest

def splitTriple : List Char → Option (List Char × List Char)
  | [] => none
  | c :: rest =>
    if isTripleAt (c :: rest) then some ([], rest.drop 2)
    else
      match splitTriple rest with
      | none => none
      | some p => some (c :: p.1, p.2)

def skipJsonTag (l : List Char) : List Char :=
  if l.take 4 = ['j', 's', 'o', 'n'] then l.drop 4 else l

def firstFenceContent : List Char → Option (List Char)
  | [] => none
  | c :: rest =>
    if isTripleAt (c :: rest) then
      match splitTriple ((skipJsonTag (rest.drop 2)).dropWhile pyWs) with
      | some p => some p.1
      | none => firstFenceContent rest
    else firstFenceContent rest

def _extract_json (text : String) : String :=
  match firstFenceContent text.toList with
  | some content => (stripChars content).asString
  | none =>
    let t := stripChars text.toList
    if t.head? = some '[' ∧ t.getLast? = some ']' then t.asString else text

theorem isTripleAt_cons_ne {c : Char} (l : List Char) (h : c ≠ '`') :
    isTripleAt (c :: l) = false := by
  unfold isTripleAt
  rw [beq_eq_false_iff_ne]
  intro contra
  rw [List.take_succ_cons] at contra
  injection contra with h1
  exact h h1

theorem isTripleAt_fence (tail : List Char) :
    isTripleAt ('`' :: '`' :: '`' :: tail) = true := by
  unfold isTripleAt
  rw [beq_iff_eq]
  rfl

theorem ffc_cons (c : Char) (rest : List Char) :
    firstFenceContent (c :: rest) =
      if isTripleAt (c :: rest) then
        match splitTriple ((skipJsonTag (rest.drop 2)).dropWhile pyWs) with
        | some p => some p.1
        | none => firstFenceContent rest
      else firstFenceContent rest := rfl

theorem st_cons (c : Char) (rest : List Char) :
    splitTriple (c :: rest) =
      if isTripleAt (c :: rest) then some ([], rest.drop 2)
      else
        match splitTriple rest with
        | none => none
        | some p => some (c :: p.1, p.2) := rfl

theorem hasTriple_cons (c : Char) (rest : List Char) :
    hasTriple (c :: rest) = (isTripleAt (c :: rest) || hasTriple rest) := rfl

theorem ffc_append (pre l : List Char) (hpre : ∀ c ∈ pre, c ≠ '`') :
    firstFenceContent (pre ++ l) = firstFenceContent l := by
  induction pre with
  | nil => rfl
  | cons p pre' ih =>
    have hp : p ≠ '`' := hpre p (List.mem_cons_self p pre')
    rw [List.cons_append, ffc_cons, if_neg (by rw [isTripleAt_cons_ne _ hp]; exact fun h => nomatch h)]
    exact ih (fun c hc => hpre c (List.mem_cons_of_mem p hc))

theorem splitTriple_boundary (arr post : List Char) (hnt : hasTriple arr = false)
    (hlast : arr.getLast? ≠ some '`') :
    splitTriple (arr ++ '`' :: '`' :: '`' :: post) = some (arr, post) := by
  induction arr with
  | nil =>
    rw [List.nil_append, st_cons, if_pos (by rw [isTripleAt_fence])]
    rfl
  | cons a t ih =>
    have hsplit := Bool.or_eq_false_iff.mp (by rw [← hasTriple_cons]; exact hnt)
    have hA : isTripleAt (a :: t) = false := hsplit.1
    have hnt' : hasTriple t = false := hsplit.2
    have hnotriple : isTripleAt (a :: (t ++ '`' :: '`' :: '`' :: post)) = false := by
      match t with
      | [] =>
        have ha : a ≠ '`' := by
          intro h
          exact hlast (by rw [h]; rfl)
        exact isTripleAt_cons_ne _ ha
      | [b] =>
        have hb : b ≠ '`' := by
          intro h
          exact hlast (by rw [h]; rfl)
        unfold isTripleAt
        rw [beq_eq_false_iff_ne]
        intro contra
        simp only [List.cons_append, List.nil_append, List.take_succ_cons] at contra
        injection contra with h1 h2
        injection h2 with h3
        exact hb h3
      | b :: c2 :: t' =>
        unfold isTripleAt at hA ⊢
        rw [beq_eq_false_iff_ne] at hA ⊢
        intro contra
        apply hA
        simp only [List.cons_append, List.take_succ_cons] at contra ⊢
        exact contra
    rw [List.cons_append, st_cons, if_neg (by rw [hnotriple]; exact fun h => nomatch h)]
    have hlast' : t.getLast? ≠ some '`' := by
      match t with
      | [] => exact fun h => nomatch h
      | x :: t' =>
        intro h
        apply hlast
        rw [List.getLast?_cons_cons]
        exact h
    rw [ih hnt' hlast']

theorem dropWhile_all (p : Char → Bool) (sep l : List Char) (h : ∀ c ∈ sep, p c = true) :
    (sep ++ l).dropWhile p = l.dropWhile p := by
  induction sep with
  | nil => rfl
  | cons c sep' ih =>
    rw [List.cons_append, List.dropWhile_cons_of_pos (h c (List.mem_cons_self c sep'))]
    exact ih (fun c hc => h c (List.mem_cons_of_mem _ hc))

theorem dropWhile_head_neg (p : Char → Bool) (l : List Char) (c : Char)
    (hc : l.head? = some c) (hp : p c = false) : l.dropWhile p = l := by
  match l with
  | [] => nomatch hc
  | a :: t =>
    injection hc with h
    subst h
    exact List.dropWhile_cons_of_neg (by rw [hp]; exact fun h => nomatch h)

theorem stripChars_id (l : List Char) (hh : ∀ c, l.head? = some c → pyWs c = false)
    (hl : ∀ c, l.getLast? = some c → pyWs c = false) : stripChars l = l := by
  unfold stripChars
  match h : l with
  | [] => rfl
  | a :: t =>
    have h1 : (a :: t).dropWhile pyWs = a :: t :=
      dropWhile_head_neg pyWs (a :: t) a rfl (hh a rfl)
    rw [h1]
    rcases hrev : (a :: t).reverse with _ | ⟨b, tr⟩
    · exact absurd hrev (by simp)
    · have hbl : (a :: t).getLast? = some b := by
        rw [List.getLast?_eq_head?_reverse, hrev]
        rfl
      have h2 : (b :: tr).dropWhile pyWs = b :: tr :=
        dropWhile_head_neg pyWs (b :: tr) b rfl (hl b hbl)
      rw [h2, ← hrev, List.reverse_reverse]

theorem ffc_none (l : List Char) (hnt : hasTriple l = false) :
    firstFenceContent l = none := by
  induction l with
  | nil => rfl
  | cons c rest ih =>
    have hsplit := Bool.or_eq_false_iff.mp (by rw [← hasTriple_cons]; exact hnt)
    rw [ffc_cons, if_neg (by rw [hsplit.1]; exact fun h => nomatch h)]
    exact ih hsplit.2

theorem skipJsonTag_json (X : List Char) :
    skipJsonTag ('j' :: 's' :: 'o' :: 'n' :: X) = X := by
  unfold skipJsonTag
  have hc : List.take 4 ('j' :: 's' :: 'o' :: 'n' :: X) = ['j', 's', 'o', 'n'] := rfl
  rw [if_pos hc]
  rfl

theorem skipJsonTag_head (l : List Char) (c : Char) (hc : l.head? = some c)
    (hne : c ≠ 'j') : skipJsonTag l = l := by
  match l with
  | [] => nomatch hc
  | a :: t =>
    injection hc with h
    subst h
    unfold skipJsonTag
    rw [if_neg]
    intro contra
    rw [List.take_succ_cons] at contra
    injection contra with h1 _
    exact hne h1

theorem head?_decomp {α : Type} {l : List α} {a : α} (h : l.head? = some a) :
    ∃ t, l = a :: t := by
  match l with
  | [] => nomatch h
  | x :: t =>
    injection h with h1
    exact ⟨t, by rw [h1]⟩

theorem pyWs_ne_backtick (c : Char) (h : pyWs c = true) : c ≠ '`' := by
  intro heq
  subst heq
  exact absurd h (by decide)

theorem no_backtick_hasTriple (b : List Char) (hb : ∀ c ∈ b, c ≠ '`') :
    hasTriple b = false := by
  induction b with
  | nil => rfl
  | cons c rest ih =>
    rw [hasTriple_cons, isTripleAt_cons_ne _ (hb c (List.mem_cons_self c rest)),
      Bool.false_or]
    exact ih (fun x hx => hb x (List.mem_cons_of_mem c hx))

theorem hasTriple_append_no_backtick (a b : List Char) (ha : hasTriple a = false)
    (hb : ∀ c ∈ b, c ≠ '`') : hasTriple (a ++ b) = false := by
  induction a with
  | nil => exact no_backtick_hasTriple b hb
  | cons x t ih =>
    have hsplit := Bool.or_eq_false_iff.mp (by rw [← hasTriple_cons]; exact ha)
    rw [List.cons_append, hasTriple_cons, ih hsplit.2, Bool.or_false]
    match t with
    | [] =>
      unfold isTripleAt
      rw [beq_eq_false_iff_ne]
      intro contra
      rw [List.nil_append, List.take_succ_cons] at contra
      injection contra with _ h2
      match b with
      | [] => exact nomatch h2
      | c1 :: b2 =>
        rw [List.take_succ_cons] at h2
        injection h2 with h3 _
        exact hb c1 (List.mem_cons_self c1 b2) h3
    | [y] =>
      unfold isTripleAt
      rw [beq_eq_false_iff_ne]
      intro contra
      rw [List.cons_append, List.nil_append, List.take_succ_cons,
        List.take_succ_cons] at contra
      injection contra with _ h2
      injection h2 with _ h3
      match b with
      | [] => exact nomatch h3
      | c1 :: b2 =>
        rw [List.take_succ_cons] at h3
        injection h3 with h4 _
        exact hb c1 (List.mem_cons_self c1 b2) h4
    | y :: z :: t2 =>
      have heq : List.take 3 (x :: ((y :: z :: t2) ++ b)) = [x, y, z] := rfl
      have heq2 : List.take 3 (x :: y :: z :: t2) = [x, y, z] := rfl
      unfold isTripleAt at hsplit ⊢
      rw [heq]
      rw [heq2] at hsplit
      exact hsplit.1

theorem stripChars_ws_right (arr sep2 : List Char)
    (hhead : arr.head? = some '[') (hlast : arr.getLast? = some ']')
    (hsep2 : ∀ c ∈ sep2, pyWs c = true) : stripChars (arr ++ sep2) = arr := by
  obtain ⟨t, harr⟩ := head?_decomp hhead
  unfold stripChars
  have h1 : (arr ++ sep2).dropWhile pyWs = arr ++ sep2 := by
    apply dropWhile_head_neg pyWs _ '['
    · rw [harr]
      rfl
    · rfl
  rw [h1, List.reverse_append,
    dropWhile_all pyWs sep2.reverse _ (fun c hc => hsep2 c (List.mem_reverse.mp hc))]
  have h2 : arr.reverse.dropWhile pyWs = arr.reverse := by
    apply dropWhile_head_neg pyWs _ ']'
    · rw [← List.getLast?_eq_head?_reverse]
      exact hlast
    · rfl
  rw [h2, List.reverse_reverse]

theorem extract_fenced (pre sep arr sep2 post : List Char) (tagJson : Bool)
    (hpre : ∀ c ∈ pre, c ≠ '`')
    (hsep : ∀ c ∈ sep, pyWs c = true)
    (hsep2 : ∀ c ∈ sep2, pyWs c = true)
    (hnt : hasTriple arr = false)
    (hhead : arr.head? = some '[')
    (hlast : arr.getLast? = some ']') :
    _extract_json (pre ++ '`' :: '`' :: '`' ::
        ((if tagJson then ['j', 's', 'o', 'n'] else []) ++
          (sep ++ (arr ++ (sep2 ++ ('`' :: '`' :: '`' :: post)))))).asString =
      arr.asString := by
  obtain ⟨arrt, harr⟩ := head?_decomp hhead
  have hdw : (sep ++ (arr ++ (sep2 ++ ('`' :: '`' :: '`' :: post)))).dropWhile pyWs =
      arr ++ (sep2 ++ ('`' :: '`' :: '`' :: post)) := by
    rw [dropWhile_all pyWs sep _ hsep]
    apply dropWhile_head_neg pyWs _ '['
    · rw [harr]
      rfl
    · rfl
  have hnt2 : hasTriple (arr ++ sep2) = false :=
    hasTriple_append_no_backtick arr sep2 hnt
      (fun c hc => pyWs_ne_backtick c (hsep2 c hc))
  have hlast2 : (arr ++ sep2).getLast? ≠ some '`' := by
    match hs2 : sep2 with
    | [] =>
      rw [List.append_nil, hlast]
      intro h
      injection h with h1
      exact absurd h1 (by decide)
    | w :: s2 =>
      rw [List.getLast?_append_of_ne_nil arr (by exact fun h => nomatch h)]
      intro h
      rcases List.mem_getLast?_eq_getLast
          (show ('`' : Char) ∈ (w :: s2).getLast? from by rw [Option.mem_def]; exact h) with
        ⟨hne, hgl⟩
      have hmem : ('`' : Char) ∈ (w :: s2) := by
        rw [hgl]
        exact List.getLast_mem hne
      exact pyWs_ne_backtick '`' (hsep2 '`' hmem) rfl
  have hsplit : splitTriple ((sep ++ (arr ++ (sep2 ++
      ('`' :: '`' :: '`' :: post)))).dropWhile pyWs) = some (arr ++ sep2, post) := by
    rw [hdw, ← List.append_assoc]
    exact splitTriple_boundary (arr ++ sep2) post hnt2 hlast2
  have hffc : firstFenceContent (pre ++ '`' :: '`' :: '`' ::
      ((if tagJson then ['j', 's', 'o', 'n'] else []) ++
        (sep ++ (arr ++ (sep2 ++ ('`' :: '`' :: '`' :: post)))))) =
      some (arr ++ sep2) := by
    rw [ffc_append pre _ hpre, ffc_cons, if_pos (by rw [isTripleAt_fence])]
    have hdrop : (('`' :: '`' ::
        ((if tagJson then ['j', 's', 'o', 'n'] else []) ++
          (sep ++ (arr ++ (sep2 ++ ('`' :: '`' :: '`' :: post)))))).drop 2) =
        (if tagJson then ['j', 's', 'o', 'n'] else []) ++
          (sep ++ (arr ++ (sep2 ++ ('`' :: '`' :: '`' :: post)))) := rfl
    rw [hdrop]
    cases tagJson
    · rw [if_neg (by exact fun h => nomatch h), List.nil_append]
      have hsk : skipJsonTag (sep ++ (arr ++ (sep2 ++ ('`' :: '`' :: '`' :: post)))) =
          sep ++ (arr ++ (sep2 ++ ('`' :: '`' :: '`' :: post))) := by
        match hsep3 : sep with
        | [] =>
          rw [List.nil_append, harr]
          exact skipJsonTag_head _ '[' rfl (by decide)
        | w :: sep4 =>
          rw [List.cons_append]
          refine skipJsonTag_head _ w ?_ ?_
          · rfl
          · intro h
            have hw := hsep w (List.mem_cons_self w sep4)
            rw [h] at hw
            exact absurd hw (by decide)
      rw [hsk, hsplit]
    · have hj : (if true = true then ['j', 's', 'o', 'n'] else ([] : List Char)) ++
          (sep ++ (arr ++ (sep2 ++ ('`' :: '`' :: '`' :: post)))) =
          'j' :: 's' :: 'o' :: 'n' ::
            (sep ++ (arr ++ (sep2 ++ ('`' :: '`' :: '`' :: post)))) := rfl
      rw [hj, skipJsonTag_json, hsplit]
  show (match firstFenceContent (pre ++ '`' :: '`' :: '`' ::
      ((if tagJson then ['j', 's', 'o', 'n'] else []) ++
        (sep ++ (arr ++ (sep2 ++ ('`' :: '`' :: '`' :: post)))))) with
    | some content => (stripChars content).asString
    | none =>
      let t := stripChars (pre ++ '`' :: '`' :: '`' ::
        ((if tagJson then ['j', 's', 'o', 'n'] else []) ++
          (sep ++ (arr ++ (sep2 ++ ('`' :: '`' :: '`' :: post))))))
      if t.head? = some '[' ∧ t.getLast? = some ']' then t.asString
      else (pre ++ '`' :: '`' :: '`' ::
        ((if tagJson then ['j', 's', 'o', 'n'] else []) ++
          (sep ++ (arr ++ (sep2 ++ ('`' :: '`' :: '`' :: post)))))).asString) = arr.asString
  rw [hffc]
  show (stripChars (arr ++ sep2)).asString = arr.asString
  rw [stripChars_ws_right arr sep2 hhead hlast hsep2]

theorem extract_bare (text : List Char) (hnt : hasTriple text = false)
    (hhead : (stripChars text).head? = some '[')
    (hlast : (stripChars text).getLast? = some ']') :
    _extract_json text.asString = (stripChars text).asString := by
  unfold _extract_json
  have htl : text.asString.toList = text := rfl
  rw [htl, ffc_none text hnt]
  show (if (stripChars text).head? = some '[' ∧ (stripChars text).getLast? = some ']'
      then (stripChars text).asString else text.asString) = (stripChars text).asString
  rw [if_pos ⟨hhead, hlast⟩]

theorem extract_unmodified (text : List Char) (hnt : hasTriple text = false)
    (hcond : ¬((stripChars text).head? = some '[' ∧ (stripChars text).getLast? = some ']')) :
    _extract_json text.asString = text.asString := by
  unfold _extract_json
  have htl : text.asString.toList = text := rfl
  rw [htl, ffc_none text hnt]
  show (if (stripChars text).head? = some '[' ∧ (stripChars text).getLast? = some ']'
      then (stripChars text).asString else text.asString) = text.asString
  rw [if_neg hcond]

def jWs (c : Char) : Bool := c = ' ' || c = '\t' || c = '\n' || c = '\r'

def isHexDigitChar (c : Char) : Bool :=
  ('0' ≤ c && c ≤ '9') || ('a' ≤ c && c ≤ 'f') || ('A' ≤ c && c ≤ 'F')

def jString : List Char → Option (List Char)
  | [] => none
  | '"' :: rest => some rest
  | '\\' :: e :: rest =>
    if e = '"' || e = '\\' || e = '/' || e = 'b' || e = 'f' || e = 'n' || e = 'r' || e = 't' then
      jString rest
    else if e = 'u' then
      match rest with
      | h1 :: h2 :: h3 :: h4 :: rest2 =>
        if isHexDigitChar h1 && isHexDigitChar h2 && isHexDigitChar h3 && isHexDigitChar h4 then
          jString rest2
        else none
      | _ => none
    else none
  | c :: rest => if c.toNat ≥ 0x20 then jString rest else none

def jExpPart (l : List Char) : Option (List Char) :=
  match l with
  | 'e' :: r =>
    let r1 := match r with
      | '+' :: r2 => r2
      | '-' :: r2 => r2
      | _ => r
    if (r1.takeWhile Char.isDigit).isEmpty then none else some (r1.dropWhile Char.isDigit)
  | 'E' :: r =>
    let r1 := match r with
      | '+' :: r2 => r2
      | '-' :: r2 => r2
      | _ => r
    if (r1.takeWhile Char.isDigit).isEmpty then none else some (r1.dropWhile Char.isDigit)
  | _ => some l

def jFracPart (l : List Char) : Option (List Char) :=
  match l with
  | '.' :: r =>
    if (r.takeWhile Char.isDigit).isEmpty then none else jExpPart (r.dropWhile Char.isDigit)
  | _ => jExpPart l

def jNumber (l : List Char) : Option (List Char) :=
  let l1 := match l with
    | '-' :: r => r
    | _ => l
  match l1 with
  | '0' :: r => jFracPart r
  | c :: r =>
    if c.isDigit then jFracPart (r.dropWhile Char.isDigit) else none
  | [] => none

mutual

def jValue : Nat → List Char → Option (List Char)
  | 0, _ => none
  | fuel + 1, l =>
    match l.dropWhile jWs with
    | 'n' :: 'u' :: 'l' :: 'l' :: r => some r
    | 't' :: 'r' :: 'u' :: 'e' :: r => some r
    | 'f' :: 'a' :: 'l' :: 's' :: 'e' :: r => some r
    | '"' :: r => jString r
    | '[' :: r => jArrItems fuel (r.dropWhile jWs)
    | '\x7b' :: r => jObjItems fuel (r.dropWhile jWs)
    | l2 => jNumber l2

def jArrItems : Nat → List Char → Option (List Char)
  | 0, _ => none
  | fuel + 1, l =>
    match l with
    | ']' :: r => some r
    | _ => jArrRest fuel l

def jArrRest : Nat → List Char → Option (List Char)
  | 0, _ => none
  | fuel + 1, l =>
    match jValue fuel l with
    | none => none
    | some r =>
      match r.dropWhile jWs with
      | ',' :: r2 => jArrRest fuel r2
      | ']' :: r2 => some r2
      | _ => none

def jObjItems : Nat → List Char → Option (List Char)
  | 0, _ => none
  | fuel + 1, l =>
    match l with
    | '\x7d' :: r => some r
    | _ => jObjRest fuel l

def jObjRest : Nat → List Char → Option (List Char)
  | 0, _ => none
  | fuel + 1, l =>
    match l.dropWhile jWs with
    | '"' :: r =>
      match jString r with
      | none => none
      | some r1 =>
        match r1.dropWhile jWs with
        | ':' :: r2 =>
          match jValue fuel r2 with
          | none => none
          | some r3 =>
            match r3.dropWhile jWs with
            | ',' :: r4 => jObjRest fuel r4
            | '\x7d' :: r4 => some r4
            | _ => none
        | _ => none
    | _ => none

end

/-- Validity of a string as one JSON array per `json.loads`: the text must
start (after whitespace) with `[` and parse as a single JSON value with
nothing but whitespace after it. -/
def isValidJsonArray (s : String) : Bool :=
  let l := s.toList
  match l.dropWhile jWs with
  | '[' :: _ =>
    match jValue (l.length + 1) l with
    | some r => (r.dropWhile jWs).isEmpty
    | none => false
  | _ => false

/-- Claim C5 (amended): `_extract_json` recovers the exact array content
provided the array text contains no triple backtick: (1) for a response
built of a backtick-free prefix, a fenced block — optionally carrying the
`json` tag, with whitespace runs allowed after the opening fence and
before the closing fence — wrapping a valid JSON array that contains no
triple backtick, and an arbitrary suffix, the array is returned exactly;
(2) with no fence present, a trimmed text that is a bare JSON array is
returned exactly (trimmed); (3) any other fence-free string is returned
unmodified.  The first fenced block takes precedence (the wrapped array
above sits in the first block).  Without the no-triple-backtick proviso
the claim fails, see the counterexample. -/
theorem C5_extract_json_recovers (pre sep arr sep2 post text : List Char)
    (tagJson : Bool) :
    ((∀ c ∈ pre, c ≠ '`') → (∀ c ∈ sep, pyWs c = true) →
      (∀ c ∈ sep2, pyWs c = true) →
      isValidJsonArray arr.asString = true → hasTriple arr = false →
      arr.head? = some '[' → arr.getLast? = some ']' →
      _extract_json (pre ++ '`' :: '`' :: '`' ::
          ((if tagJson then ['j', 's', 'o', 'n'] else []) ++
            (sep ++ (arr ++ (sep2 ++ ('`' :: '`' :: '`' :: post)))))).asString =
        arr.asString) ∧
    (hasTriple text = false → isValidJsonArray (stripChars text).asString = true →
      (stripChars text).head? = some '[' → (stripChars text).getLast? = some ']' →
      _extract_json text.asString = (stripChars text).asString) ∧
    (hasTriple text = false →
      ¬((stripChars text).head? = some '[' ∧ (stripChars text).getLast? = some ']') →
      _extract_json text.asString = text.asString) :=
  ⟨fun hpre hsep hsep2 _ hnt hhead hlast =>
      extract_fenced pre sep arr sep2 post tagJson hpre hsep hsep2 hnt hhead hlast,
   fun hnt _ hhead hlast => extract_bare text hnt hhead hlast,
   fun hnt hcond => extract_unmodified text hnt hcond⟩

/-- Witness for C5: the canonical fenced response with a newline on each
side of the array, `\`\`\`json\n[1]\n\`\`\``, yields exactly `[1]`. -/
theorem C5_extract_json_recovers_witness :
    isValidJsonArray (['[', '1', ']'] : List Char).asString = true ∧
    _extract_json (([] ++ '`' :: '`' :: '`' ::
        ((if true then ['j', 's', 'o', 'n'] else []) ++
          (['\n'] ++ ((['[', '1', ']'] : List Char) ++
            (['\n'] ++ ('`' :: '`' :: '`' :: [])))))).asString) =
      (['[', '1', ']'] : List Char).asString :=
  ⟨by decide,
   (C5_extract_json_recovers [] ['\n'] ['[', '1', ']'] ['\n'] [] [] true).1
     (by decide) (by decide) (by decide) (by decide) (by decide) (by decide) (by decide)⟩

/-- Counterexample to C5 as stated: the response wraps the valid JSON
array `["\`\`\`"]` in a json-tagged fence, but the lazy regex group stops
at the first triple backtick inside the array's string literal, so
`_extract_json` returns `["` instead of the array content. -/
theorem C5_extract_json_counterexample :
    ("```json\n[\"```\"]\n```" : String) = "```json\n" ++ "[\"```\"]" ++ "\n```" ∧
    isValidJsonArray "[\"```\"]" = true ∧
    _extract_json "```json\n[\"```\"]\n```" = "[\"" ∧
    ("[\"" : String) ≠ "[\"```\"]" :=
  ⟨rfl, by decide, by decide, by decide⟩

end Deployable
